import Mathlib

/-!
# Verification of the fNIRS toolkit aggregation core

Shallow embedding of `src/cred_fnirs_toolkit/fnirs_toolkit_cli.py`:
block segmentation, per-channel statistics, hemoglobin-type
classification, trial-name extraction, source-detector extraction,
channel-to-region mapping, region pivot values, global block-order
tracking, and the run orchestrator's per-file error handling.

Sample values are embedded as rationals. `np.mean` of an empty slice is
`NaN` in numpy (treated as a missing value downstream by pandas), which
is embedded as `none`.
-/

/-- `np.mean xs`: arithmetic mean; `none` on an empty slice (numpy yields
`NaN`, which pandas treats as a missing value). -/
def npMean (xs : List ℚ) : Option ℚ :=
  if xs.length = 0 then none else some (xs.sum / (xs.length : ℚ))

/-- The square of `np.std xs` (the population variance); `none` on an empty
slice (numpy yields `NaN`).  `np.std` is the square root of this quantity;
the square root is omitted because `ℚ` is not closed under square roots and
no property below depends on the standard deviation's magnitude, only on
whether a value is present. -/
def npStdSq (xs : List ℚ) : Option ℚ :=
  (npMean xs).map (fun mu => ((xs.map (fun x => (x - mu) ^ 2)).sum / (xs.length : ℚ)))

/-- Python's substring containment `pat in l` on character lists. -/
def listContains (l pat : List Char) : Bool :=
  (List.range (l.length + 1)).any (fun i => ((l.drop i).take pat.length) == pat)

/-- Whether `pat` is an initial segment of `l` (the anchored comparison
Python's scanning primitives perform at each position). -/
def leadsList : List Char → List Char → Bool
  | [], _ => true
  | _ :: _, [] => false
  | p :: ps, c :: cs => p == c && leadsList ps cs

/-- Python's `str.replace` scan for a fixed nonempty pattern: left to
right, non-overlapping, every occurrence replaced.  The `fuel` argument
makes the recursion structural; it is initialized to the length of the
scanned list, which every call preserves as an upper bound, so the
zero-fuel fallback is never reached. -/
def replaceGo (pat rep : List Char) : Nat → List Char → List Char
  | _, [] => []
  | 0, l => l
  | fuel + 1, c :: rest =>
    if leadsList pat (c :: rest) && !pat.isEmpty then
      rep ++ replaceGo pat rep fuel ((c :: rest).drop pat.length)
    else
      c :: replaceGo pat rep fuel rest

/-- Python's `s.replace(pat, rep)` for a nonempty pattern. -/
def pyReplace (s pat rep : String) : String :=
  String.mk (replaceGo pat.toList rep.toList s.toList.length s.toList)

/-- Python's `str.split` scan for a fixed nonempty separator, with the
same fuel discipline as `replaceGo`. -/
def splitGo (sep : List Char) : Nat → List Char → List Char → List (List Char)
  | _, acc, [] => [acc.reverse]
  | 0, acc, l => [acc.reverse ++ l]
  | fuel + 1, acc, c :: rest =>
    if leadsList sep (c :: rest) && !sep.isEmpty then
      acc.reverse :: splitGo sep fuel [] ((c :: rest).drop sep.length)
    else
      splitGo sep fuel (c :: acc) rest

/-- Python's `s.split(sep)` for a nonempty separator. -/
def pySplit (s sep : String) : List String :=
  (splitGo sep.toList s.toList.length [] s.toList).map String.mk

/-- Python's `pat in s.lower()`: case-insensitive substring containment
(the patterns the code tests are already lowercase). -/
def containsCI (s pat : String) : Bool :=
  listContains (s.toList.map Char.toLower) pat.toList

/-- The inline hemoglobin-type classification of `get_hemoglobin_averages`:
`'hbo' in ch_name.lower()` gives `"HbO"`, else `'hbr' in ch_name.lower()`
gives `"HbR"`, else `"Unknown"`. -/
def hbClassify (ch_name : String) : String :=
  if containsCI ch_name "hbo" then "HbO"
  else if containsCI ch_name "hbr" then "HbR"
  else "Unknown"

/-- One MNE event as returned by `mne.events_from_annotations`:
`(sample, previous id, event id)`; the middle component is unused by the
code. -/
structure Event where
  sample : Nat
  prev : Nat
  id : Nat
deriving DecidableEq, Repr, Inhabited

/-- One row of the results DataFrame built by `get_hemoglobin_averages`. -/
structure ChannelMeasurement where
  Trial : String
  Block : String
  Channel : String
  HbType : String
  Mean_Value : Option ℚ
  Std_Value : Option ℚ
  Block_Duration_s : ℚ
deriving DecidableEq, Repr, Inhabited

/-- The inputs `get_hemoglobin_averages` reads from the `mne.io.Raw`
object: channel names, sampling frequency, the data array
(channels × samples), and the events plus event-id dictionary produced by
`mne.events_from_annotations`. -/
structure RawHemo where
  ch_names : List String
  sfreq : ℚ
  data : List (List ℚ)
  events : List Event
  event_ids : List (String × Nat)
deriving Repr, Inhabited

/-- `len(data[0])`: the number of samples of the series. -/
def nSamples (raw : RawHemo) : Nat :=
  (raw.data.headD []).length

/-- The first-matching-label lookup of
`for label, id_val in event_ids.items(): if id_val == event_id: ...`. -/
def lookupLabel (event_ids : List (String × Nat)) (eid : Nat) : Option String :=
  (event_ids.find? (fun p => p.2 == eid)).map Prod.fst

/-- `event_label if event_label else f'Block_{event_idx}'`: the resolved
label is used unless it is `None` or falsy (the empty string). -/
def blockLabel (event_ids : List (String × Nat)) (event_idx : Nat) (eid : Nat) : String :=
  match lookupLabel event_ids eid with
  | some l => if l = "" then "Block_" ++ toString event_idx else l
  | none => "Block_" ++ toString event_idx

/-- The numpy slice `row[s:e]` of one channel's samples. -/
def sliceRow (row : List ℚ) (s e : Nat) : List ℚ :=
  (row.drop s).take (e - s)

/-- The block windows of the event loop in `get_hemoglobin_averages`:
block `i` starts at `events[i]`'s sample and ends at `events[i+1]`'s
sample, or at `n_samples` for the last event. -/
def segmentBlocks : List Nat → Nat → List (Nat × Nat)
  | [], _ => []
  | [a], n => [(a, n)]
  | a :: b :: rest, n => (a, b) :: segmentBlocks (b :: rest) n

/-- The inner per-channel loop of `get_hemoglobin_averages` for one block
window `blk` with resolved label `blockName`. -/
def blockRows (trial_name : String) (data : List (List ℚ)) (ch_names : List String)
    (sfreq : ℚ) (blockName : String) (blk : Nat × Nat) : List ChannelMeasurement :=
  ch_names.enum.map (fun ci =>
    let xs := sliceRow (data.getD ci.1 []) blk.1 blk.2
    { Trial := trial_name
      Block := blockName
      Channel := ci.2
      HbType := hbClassify ci.2
      Mean_Value := npMean xs
      Std_Value := npStdSq xs
      Block_Duration_s := ((blk.2 : ℚ) - (blk.1 : ℚ)) / sfreq })

/-- `get_hemoglobin_averages`: one `ChannelMeasurement` row per
(block, channel) pair; with no events, the entire recording is one block
labeled `"Entire_Recording"`. -/
def get_hemoglobin_averages (raw : RawHemo) (trial_name : String) : List ChannelMeasurement :=
  let data := raw.data
  let n_samples := nSamples raw
  if raw.events.length > 0 then
    let blocks := segmentBlocks (raw.events.map (fun e => e.sample)) n_samples
    (raw.events.enum.zip blocks).flatMap (fun p =>
      blockRows trial_name data raw.ch_names raw.sfreq
        (blockLabel raw.event_ids p.1.1 p.1.2.id) p.2)
  else
    raw.ch_names.enum.map (fun ci =>
      { Trial := trial_name
        Block := "Entire_Recording"
        Channel := ci.2
        HbType := hbClassify ci.2
        Mean_Value := npMean (data.getD ci.1 [])
        Std_Value := npStdSq (data.getD ci.1 [])
        Block_Duration_s := (n_samples : ℚ) / raw.sfreq })

/-- `os.path.basename`: the part of the path after the last slash. -/
def basename (p : String) : String :=
  (pySplit p "/").getLastD ""

/-- `extract_trial_name`: strip `.snirf`, split on underscores; with three
or more parts return `parts[1] ++ "_" ++ parts[2]`, else the stripped
name. -/
def extract_trial_name (snirf_file : String) : String :=
  let filename := basename snirf_file
  let filename_parts := pySplit (pyReplace filename ".snirf" "") "_"
  if 3 ≤ filename_parts.length then
    (filename_parts.getD 1 "") ++ "_" ++ (filename_parts.getD 2 "")
  else
    pyReplace filename ".snirf" ""

/-- The regex `S(\d+)_D(\d+)` matched at the start of a character list:
`S`, one or more digits, `_D`, one or more digits; on success returns
`f"S{group1}_D{group2}"` as `extract_source_detector` rebuilds it.
Backtracking over `\d+` never helps here because a shorter digit run is
followed by another digit, not by the required literal, so the greedy
match is exact. -/
def matchSDFrom : List Char → Option String
  | 'S' :: rest =>
    let d1 := rest.takeWhile Char.isDigit
    if d1.isEmpty then none
    else
      match rest.drop d1.length with
      | '_' :: 'D' :: rest2 =>
        let d2 := rest2.takeWhile Char.isDigit
        if d2.isEmpty then none
        else some (("S" ++ String.mk d1 ++ "_D" ++ String.mk d2))
      | _ => none
  | _ => none

/-- `re.search`: try the pattern at each position, leftmost match wins. -/
def searchSD : List Char → Option String
  | [] => none
  | c :: rest =>
    match matchSDFrom (c :: rest) with
    | some s => some s
    | none => searchSD rest

/-- `extract_source_detector`: the `S#_D#` substring of a channel label,
or `None` when the pattern does not occur. -/
def extract_source_detector (channel_name : String) : Option String :=
  searchSD channel_name.toList

/-- Decidable form of "some substring of `s` matches `S(\d+)_D(\d+)`". -/
def hasSDPattern (s : String) : Bool :=
  (List.range (s.toList.length + 1)).any (fun i => (matchSDFrom (s.toList.drop i)).isSome)

/-- One record of the channel-mapping JSON artifact. -/
structure MapEntry where
  source : Nat
  detector : Nat
  region : String
deriving DecidableEq, Repr

/-- Python-dict insertion: replace the value in place if the key exists,
else append. -/
def dictInsert (d : List (String × String)) (k v : String) : List (String × String) :=
  if d.any (fun p => p.1 == k) then
    d.map (fun p => if p.1 == k then (k, v) else p)
  else d ++ [(k, v)]

/-- `load_channel_mapping`: build the `"S{source}_D{detector}" -> region`
dictionary; duplicate keys resolve to the last entry. -/
def load_channel_mapping (channel_map : List MapEntry) : List (String × String) :=
  channel_map.foldl
    (fun acc e =>
      dictInsert acc ("S" ++ toString e.source ++ "_D" ++ toString e.detector) e.region)
    []

/-- Dictionary lookup (`pandas.Series.map` of a dict): the value at the
first matching key, or `none` (`NaN`). -/
def lookupRegion (channel_to_region : List (String × String)) (key : String) : Option String :=
  (channel_to_region.find? (fun p => p.1 == key)).map Prod.snd

/-- The `Region` column of `hbo_df_regions`: `Source_Detector` extraction
followed by the dict lookup; `None`/missing propagates to `NaN`. -/
def withRegion (channel_to_region : List (String × String)) (m : ChannelMeasurement) :
    Option String :=
  (extract_source_detector m.Channel).bind (lookupRegion channel_to_region)

/-- `combined_df[combined_df['HbType'] == 'HbO']`: the rows of the
detailed (per-channel) report. -/
def hbo_df (combined : List ChannelMeasurement) : List ChannelMeasurement :=
  combined.filter (fun m => m.HbType == "HbO")

/-- `hbo_df_regions[hbo_df_regions['Region'].notna()]`: HbO rows whose
channel resolves to a mapped region. -/
def hbo_df_regions_clean (channel_to_region : List (String × String))
    (combined : List ChannelMeasurement) : List ChannelMeasurement :=
  (hbo_df combined).filter (fun m => (withRegion channel_to_region m).isSome)

/-- `hbo_df_regions_clean[hbo_df_regions_clean['Region'] == region]`: the
rows aggregated into one region's pivot table. -/
def regionRows (channel_to_region : List (String × String))
    (combined : List ChannelMeasurement) (region : String) : List ChannelMeasurement :=
  (hbo_df_regions_clean channel_to_region combined).filter
    (fun m => withRegion channel_to_region m == some region)

/-- One cell of a region's pivot table
(`pivot_table(index='Trial', columns='Block', values='Mean_Value',
aggfunc='mean')`): the mean of the present (non-`NaN`) `Mean_Value`
entries for that trial and block; an empty group is a missing cell. -/
def regionPivotValue (channel_to_region : List (String × String))
    (combined : List ChannelMeasurement) (region trial block : String) : Option ℚ :=
  npMean (((regionRows channel_to_region combined region).filter
    (fun m => m.Trial == trial && m.Block == block)).filterMap (fun m => m.Mean_Value))

/-- The accumulation loop of `process_snirf_files`:
`for block in file_blocks: if block not in all_blocks_seen: append`. -/
def addNewBlocks (all_blocks_seen : List String) (file_blocks : List String) : List String :=
  file_blocks.foldl
    (fun acc block => if acc.contains block then acc else acc ++ [block]) all_blocks_seen

/-- `averages_df['Block'].unique().tolist()`: the distinct block labels of
one file's rows, in order of first occurrence. -/
def uniqueBlocks (rows : List ChannelMeasurement) : List String :=
  addNewBlocks [] (rows.map (fun m => m.Block))

/-- The whole-run block-order accumulation over the per-file label
lists. -/
def trackBlockOrder (file_label_lists : List (List String)) : List String :=
  file_label_lists.foldl addNewBlocks []

/-- Outcome of `process_snirf_files` after the per-file loop: either the
early return `"No files were successfully processed"` (no pivot tables
are built), or the report state (the frozen global block order and the
combined measurement rows from which all pivot tables are built). -/
inductive RunResult where
  | noData : RunResult
  | report : List String → List ChannelMeasurement → RunResult
deriving DecidableEq, Repr

/-- The successfully processed files, in processing order: each `try`
body appends to `all_averages`; an exception skips the file. -/
def successes (files : List (Except String (List ChannelMeasurement))) :
    List (List ChannelMeasurement) :=
  files.filterMap (fun f => match f with | .ok df => some df | .error _ => none)

/-- The per-file loop and zero-success check of `process_snirf_files`:
each file's conversion either yields its rows or raises (modelled as
`Except`); failures are caught and skipped; with no successes the run
returns before any pivot table is built. -/
def process_snirf_files (files : List (Except String (List ChannelMeasurement))) : RunResult :=
  let all_averages := successes files
  let all_blocks_seen := trackBlockOrder (all_averages.map uniqueBlocks)
  if all_averages.isEmpty then RunResult.noData
  else RunResult.report all_blocks_seen all_averages.flatten

/-- Membership of a sample index in a half-open block window. -/
def memBlock (b : Nat × Nat) (k : Nat) : Bool :=
  decide (b.1 ≤ k) && decide (k < b.2)

/-- How many of the blocks contain sample `k`: `1` everywhere on the
union with no overlaps means the blocks partition the covered range. -/
def countCovering (bs : List (Nat × Nat)) (k : Nat) : Nat :=
  (bs.filter (fun b => memBlock b k)).length

/-- First-occurrence deduplication by exact string equality (the order
`pandas.unique` and the block-order accumulator preserve). -/
def dedupFirst : List String → List String
  | [] => []
  | b :: rest => b :: dedupFirst (rest.filter (fun x => !(x == b)))
termination_by l => l.length
decreasing_by
  exact Nat.lt_succ_of_le (List.length_filter_le _ _)

theorem contains_append (l₁ l₂ : List String) (a : String) :
    (l₁ ++ l₂).contains a = (l₁.contains a || l₂.contains a) := by
  induction l₁ with
  | nil => simp [List.contains_cons]
  | cons x xs ih => simp [List.contains_cons, ih, Bool.or_assoc]

theorem addNewBlocks_nil (seen : List String) : addNewBlocks seen [] = seen := rfl

theorem addNewBlocks_cons (seen : List String) (b : String) (rest : List String) :
    addNewBlocks seen (b :: rest) =
      addNewBlocks (if seen.contains b then seen else seen ++ [b]) rest := by
  simp only [addNewBlocks, List.foldl_cons]

/-- The accumulation loop appends exactly the labels not yet present, in
first-occurrence order, after the existing prefix. -/
theorem addNewBlocks_eq (file_blocks : List String) : ∀ all_blocks_seen : List String,
    addNewBlocks all_blocks_seen file_blocks =
      all_blocks_seen ++
        dedupFirst (file_blocks.filter (fun b => !(all_blocks_seen.contains b))) := by
  induction file_blocks with
  | nil => intro seen; simp [addNewBlocks_nil, dedupFirst]
  | cons b rest ih =>
    intro seen
    rw [addNewBlocks_cons]
    by_cases hb : seen.contains b
    · rw [if_pos hb, ih seen, List.filter_cons]
      simp only [hb, Bool.not_true, Bool.false_eq_true, if_false]
    · rw [if_neg hb, ih (seen ++ [b]), List.filter_cons]
      simp only [hb, Bool.not_false, if_pos]
      rw [dedupFirst, List.filter_filter, List.append_assoc]
      have hfc : (rest.filter (fun x => !((seen ++ [b]).contains x))) =
          (rest.filter (fun x => !(x == b) && !(seen.contains x))) := by
        apply List.filter_congr
        intro x _
        rw [contains_append, List.contains_cons]
        simp [Bool.not_or, Bool.and_comm]
      rw [hfc]
      rfl

/-- C2: for every fixed order of processed files, the global block order
appends, per file, the block labels not already present, preserving each
file's internal order among the newly appended labels, deduplicated by
exact string equality with positions never changing once inserted; the
files contributing labels `["A","B"]` then `["B","C"]` yield
`["A","B","C"]`. -/
theorem global_block_order_spec :
    (∀ all_blocks_seen file_blocks : List String,
      addNewBlocks all_blocks_seen file_blocks =
        all_blocks_seen ++
          dedupFirst (file_blocks.filter (fun b => !(all_blocks_seen.contains b)))) ∧
    trackBlockOrder [["A", "B"], ["B", "C"]] = ["A", "B", "C"] :=
  ⟨fun seen fb => addNewBlocks_eq fb seen, by decide⟩

/-- C9: the trial identifier is the second and third underscore-separated
parts of the extension-stripped basename joined with an underscore when
there are at least three parts, and the extension-stripped basename
otherwise; the function is total, so no error is raised for malformed
names. -/
theorem extract_trial_name_spec (snirf_file : String) :
    (3 ≤ (pySplit (pyReplace (basename snirf_file) ".snirf" "") "_").length →
      extract_trial_name snirf_file =
        (pySplit (pyReplace (basename snirf_file) ".snirf" "") "_").getD 1 "" ++ "_" ++
        (pySplit (pyReplace (basename snirf_file) ".snirf" "") "_").getD 2 "") ∧
    ((pySplit (pyReplace (basename snirf_file) ".snirf" "") "_").length < 3 →
      extract_trial_name snirf_file = pyReplace (basename snirf_file) ".snirf" "") := by
  constructor
  · intro h
    simp only [extract_trial_name, if_pos h]
  · intro h
    simp only [extract_trial_name]
    rw [if_neg (by omega)]

/-- Witness for C9 on the well-formed name `20240101_TX_P01.snirf`. -/
theorem extract_trial_name_spec_witness :
    (3 ≤ (pySplit (pyReplace (basename "20240101_TX_P01.snirf") ".snirf" "") "_").length) ∧
    extract_trial_name "20240101_TX_P01.snirf" = "TX_P01" :=
  ⟨by decide, ((extract_trial_name_spec "20240101_TX_P01.snirf").1 (by decide)).trans (by decide)⟩

/-- C6: a per-file failure is caught and the remaining files are still
processed (inserting a failing file anywhere changes nothing), and a run
in which zero files succeed ends in the fatal no-data outcome, before any
pivot table is built. -/
theorem run_orchestrator_spec :
    (∀ (l₁ l₂ : List (Except String (List ChannelMeasurement))) (msg : String),
      process_snirf_files (l₁ ++ Except.error msg :: l₂) = process_snirf_files (l₁ ++ l₂)) ∧
    (∀ files : List (Except String (List ChannelMeasurement)),
      (∀ f ∈ files, f.isOk = false) → process_snirf_files files = RunResult.noData) := by
  constructor
  · intro l₁ l₂ msg
    have hs : successes (l₁ ++ Except.error msg :: l₂) = successes (l₁ ++ l₂) := by
      simp [successes, List.filterMap_append]
    simp only [process_snirf_files, hs]
  · intro files h
    have hs : successes files = [] := by
      rw [successes, List.filterMap_eq_nil_iff]
      intro f hf
      cases f with
      | ok df => exact absurd (h _ hf) (by simp [Except.isOk, Except.toBool])
      | error msg => rfl
    simp [process_snirf_files, hs]

/-- Witness for C6: a run whose only file fails is fatal. -/
theorem run_orchestrator_spec_witness :
    process_snirf_files [Except.error "conversion failed"] = RunResult.noData :=
  run_orchestrator_spec.2 [Except.error "conversion failed"] (by decide)

/-- C3: each cell of a region's pivot table is the arithmetic mean of the
recorded mean measurements of the oxygenated-hemoglobin channels mapped
to that region, for that trial and block. -/
theorem region_pivot_value_spec (channel_to_region : List (String × String))
    (combined : List ChannelMeasurement) (region trial block : String) :
    regionPivotValue channel_to_region combined region trial block =
      npMean ((combined.filter (fun m =>
          m.HbType == "HbO" && withRegion channel_to_region m == some region &&
          m.Trial == trial && m.Block == block)).filterMap
        (fun m => m.Mean_Value)) := by
  unfold regionPivotValue regionRows hbo_df_regions_clean hbo_df
  rw [List.filter_filter, List.filter_filter, List.filter_filter]
  congr 1
  congr 1
  apply List.filter_congr
  intro m _
  cases hw : withRegion channel_to_region m with
  | none =>
    cases h1 : (m.HbType == "HbO") <;> simp [hw, h1]
  | some r =>
    cases h1 : (m.HbType == "HbO") <;>
      cases h2 : ((some r : Option String) == some region) <;>
        simp [hw, h1, h2, Bool.and_assoc, Bool.and_comm, Bool.and_left_comm]

/-- Every row produced by `get_hemoglobin_averages` carries the inline
substring-based classification of its own channel label. -/
theorem hbType_of_mem (raw : RawHemo) (t : String) (r : ChannelMeasurement)
    (hr : r ∈ get_hemoglobin_averages raw t) : r.HbType = hbClassify r.Channel := by
  simp only [get_hemoglobin_averages] at hr
  by_cases h : raw.events.length > 0
  · rw [if_pos h, List.mem_flatMap] at hr
    obtain ⟨p, _, hr⟩ := hr
    simp only [blockRows, List.mem_map] at hr
    obtain ⟨ci, _, rfl⟩ := hr
    rfl
  · rw [if_neg h, List.mem_map] at hr
    obtain ⟨ci, _, rfl⟩ := hr
    rfl

/-- C8: the signal-type tag of every produced row is `"HbO"` when the
channel label contains the oxygenated-hemoglobin substring
case-insensitively, else `"HbR"` when it contains the
deoxygenated-hemoglobin substring case-insensitively, else `"Unknown"`;
nothing else about the label's structure is validated. -/
theorem hb_classification_spec (raw : RawHemo) (t : String) (r : ChannelMeasurement)
    (hr : r ∈ get_hemoglobin_averages raw t) :
    r.HbType =
      (if containsCI r.Channel "hbo" then "HbO"
       else if containsCI r.Channel "hbr" then "HbR"
       else "Unknown") :=
  hbType_of_mem raw t r hr

/-- C10: when a channel label contains both substrings, the
oxygenated-hemoglobin test wins. -/
theorem hb_precedence_spec (raw : RawHemo) (t : String) (r : ChannelMeasurement)
    (hr : r ∈ get_hemoglobin_averages raw t)
    (h1 : containsCI r.Channel "hbo" = true)
    (_h2 : containsCI r.Channel "hbr" = true) : r.HbType = "HbO" := by
  rw [hbType_of_mem raw t r hr, hbClassify, if_pos h1]

/-- A four-channel, no-event series exercising all classification
branches. -/
def rawClassify : RawHemo :=
  { ch_names := ["S1_D1 hbo", "S2_D1 HbR", "S3_D1 750", "x HbOHbR"]
    sfreq := 5
    data := [[1], [1], [1], [1]]
    events := []
    event_ids := [] }

/-- Witness for C8 at three concrete channel labels. -/
theorem hb_classification_spec_witness :
    ((get_hemoglobin_averages rawClassify "t").getD 0 default).HbType = "HbO" ∧
    ((get_hemoglobin_averages rawClassify "t").getD 1 default).HbType = "HbR" ∧
    ((get_hemoglobin_averages rawClassify "t").getD 2 default).HbType = "Unknown" := by
  refine ⟨?_, ?_, ?_⟩ <;>
    rw [List.getD_eq_getElem _ _ (by decide)] <;>
    exact (hb_classification_spec rawClassify "t" _ (List.getElem_mem (by decide))).trans
      (by decide)

/-- Witness for C10 at a label containing both substrings. -/
theorem hb_precedence_spec_witness :
    ((get_hemoglobin_averages rawClassify "t").getD 3 default).HbType = "HbO" := by
  rw [List.getD_eq_getElem _ _ (by decide)]
  exact hb_precedence_spec rawClassify "t" _ (List.getElem_mem (by decide))
    (by decide) (by decide)

/-- C4: with zero event annotations there is exactly one block, labeled
`"Entire_Recording"`, spanning all samples: one row per channel whose
statistics are taken over the channel's full sample row and whose
duration is `n_samples / sample_rate`. -/
theorem entire_recording_spec (raw : RawHemo) (t : String)
    (hev : raw.events = []) (i : Nat) (hi : i < raw.ch_names.length) :
    (get_hemoglobin_averages raw t).length = raw.ch_names.length ∧
    ((get_hemoglobin_averages raw t).getD i default).Block = "Entire_Recording" ∧
    ((get_hemoglobin_averages raw t).getD i default).Channel = raw.ch_names.getD i "" ∧
    ((get_hemoglobin_averages raw t).getD i default).Mean_Value =
      npMean (raw.data.getD i []) ∧
    ((get_hemoglobin_averages raw t).getD i default).Std_Value =
      npStdSq (raw.data.getD i []) ∧
    ((get_hemoglobin_averages raw t).getD i default).Block_Duration_s =
      (nSamples raw : ℚ) / raw.sfreq := by
  have h0 : get_hemoglobin_averages raw t =
      raw.ch_names.enum.map (fun ci =>
        { Trial := t
          Block := "Entire_Recording"
          Channel := ci.2
          HbType := hbClassify ci.2
          Mean_Value := npMean (raw.data.getD ci.1 [])
          Std_Value := npStdSq (raw.data.getD ci.1 [])
          Block_Duration_s := (nSamples raw : ℚ) / raw.sfreq }) := by
    simp [get_hemoglobin_averages, hev]
  simp only [h0]
  have hb : i < (raw.ch_names.enum.map (fun ci =>
      ({ Trial := t
         Block := "Entire_Recording"
         Channel := ci.2
         HbType := hbClassify ci.2
         Mean_Value := npMean (raw.data.getD ci.1 [])
         Std_Value := npStdSq (raw.data.getD ci.1 [])
         Block_Duration_s := (nSamples raw : ℚ) / raw.sfreq } : ChannelMeasurement))).length := by
    simpa using hi
  rw [List.getD_eq_getElem _ _ hb, List.getElem_map, List.getElem_enum]
  exact ⟨by simp, rfl, (List.getD_eq_getElem _ _ hi).symm, rfl, rfl, rfl⟩

/-- A one-channel, two-sample, zero-annotation series. -/
def rawEntire : RawHemo :=
  { ch_names := ["S1_D1 hbo"], sfreq := 5, data := [[1, 2]], events := [], event_ids := [] }

/-- Witness for C4 on a concrete zero-annotation series. -/
theorem entire_recording_spec_witness :
    (get_hemoglobin_averages rawEntire "t").length = rawEntire.ch_names.length ∧
    ((get_hemoglobin_averages rawEntire "t").getD 0 default).Block = "Entire_Recording" ∧
    ((get_hemoglobin_averages rawEntire "t").getD 0 default).Channel =
      rawEntire.ch_names.getD 0 "" ∧
    ((get_hemoglobin_averages rawEntire "t").getD 0 default).Mean_Value =
      npMean (rawEntire.data.getD 0 []) ∧
    ((get_hemoglobin_averages rawEntire "t").getD 0 default).Std_Value =
      npStdSq (rawEntire.data.getD 0 []) ∧
    ((get_hemoglobin_averages rawEntire "t").getD 0 default).Block_Duration_s =
      (nSamples rawEntire : ℚ) / rawEntire.sfreq :=
  entire_recording_spec rawEntire "t" rfl 0 (by decide)

theorem countCovering_nil (k : Nat) : countCovering [] k = 0 := rfl

theorem countCovering_cons (x : Nat × Nat) (bs : List (Nat × Nat)) (k : Nat) :
    countCovering (x :: bs) k = (if memBlock x k then 1 else 0) + countCovering bs k := by
  simp only [countCovering, List.filter_cons]
  split <;> simp [Nat.add_comm]

/-- The block windows are contiguous: each block ends where the next
begins. -/
theorem segmentBlocks_chain (l : List Nat) (n : Nat) :
    List.Chain' (fun b c => b.2 = c.1) (segmentBlocks l n) := by
  induction l with
  | nil => simp [segmentBlocks]
  | cons a tl ih =>
    cases tl with
    | nil => simp [segmentBlocks]
    | cons b rest =>
      simp only [segmentBlocks]
      rw [List.chain'_cons']
      refine ⟨?_, ih⟩
      intro y hy
      cases rest with
      | nil =>
        simp only [segmentBlocks, List.head?_cons, Option.mem_def, Option.some.injEq] at hy
        rw [← hy]
      | cons c rest2 =>
        simp only [segmentBlocks, List.head?_cons, Option.mem_def, Option.some.injEq] at hy
        rw [← hy]

/-- For sorted annotation samples bounded by the sample count, every
sample index is covered by exactly one block on
`[first annotation sample, n_samples)` and by none outside it. -/
theorem countCovering_segmentBlocks (l : List Nat) (n : Nat) :
    l ≠ [] → List.Chain' (fun a b => a ≤ b) l → (∀ a ∈ l, a ≤ n) →
    ∀ k : Nat, countCovering (segmentBlocks l n) k =
      if l.headD 0 ≤ k ∧ k < n then 1 else 0 := by
  induction l with
  | nil => intro h; exact absurd rfl h
  | cons a tl ih =>
    intro _ hsort hle k
    cases tl with
    | nil =>
      simp only [segmentBlocks, countCovering_cons, countCovering_nil, List.headD_cons]
      simp only [memBlock, Bool.and_eq_true, decide_eq_true_eq]
      split_ifs <;> omega
    | cons b rest =>
      simp only [segmentBlocks, countCovering_cons, List.headD_cons]
      have hab : a ≤ b := (List.chain'_cons.mp hsort).1
      have hbn : b ≤ n := hle b (by simp)
      rw [ih (by simp) (List.chain'_cons.mp hsort).2
        (fun x hx => hle x (List.mem_cons_of_mem a hx)) k]
      simp only [memBlock, Bool.and_eq_true, decide_eq_true_eq, List.headD_cons]
      split_ifs <;> omega

/-- C1 (amended): for a non-empty annotation set sorted by sample index
with samples at most `n_samples`, the blocks are contiguous and
non-overlapping and their union exactly covers
`[first annotation sample, n_samples)` — not `[0, n_samples)`. -/
theorem block_partition_spec (raw : RawHemo)
    (hne : raw.events ≠ [])
    (hsort : List.Chain' (fun a b => a ≤ b) (raw.events.map (fun e => e.sample)))
    (hle : ∀ e ∈ raw.events, e.sample ≤ nSamples raw) :
    List.Chain' (fun b c => b.2 = c.1)
        (segmentBlocks (raw.events.map (fun e => e.sample)) (nSamples raw)) ∧
    ∀ k : Nat,
      countCovering (segmentBlocks (raw.events.map (fun e => e.sample)) (nSamples raw)) k =
        if (raw.events.map (fun e => e.sample)).headD 0 ≤ k ∧ k < nSamples raw
        then 1 else 0 := by
  refine ⟨segmentBlocks_chain _ _, ?_⟩
  apply countCovering_segmentBlocks
  · simpa using hne
  · exact hsort
  · intro a ha
    rw [List.mem_map] at ha
    obtain ⟨e, he, rfl⟩ := ha
    exact hle e he

/-- A 10-sample series whose single annotation is at sample 5. -/
def rawGap : RawHemo :=
  { ch_names := ["S1_D1 hbo"], sfreq := 5
    data := [[0, 0, 0, 0, 0, 0, 0, 0, 0, 0]]
    events := [⟨5, 0, 1⟩], event_ids := [("A", 1)] }

/-- C1 counterexample: with a non-empty annotation set whose first
annotation is at sample 5 of 10, sample 0 lies in `[0, n_samples)` yet is
covered by no produced block, so the union of blocks does not cover
`[0, n_samples)` as the claim states. -/
theorem block_partition_cex :
    0 < nSamples rawGap ∧
    countCovering (segmentBlocks (rawGap.events.map (fun e => e.sample)) (nSamples rawGap)) 0
      = 0 := by decide

/-- A 10-sample series with annotations at samples 0 and 5. -/
def rawTwoBlocks : RawHemo :=
  { ch_names := ["S1_D1 hbo"], sfreq := 5
    data := [[0, 0, 0, 0, 0, 0, 0, 0, 0, 0]]
    events := [⟨0, 0, 1⟩, ⟨5, 0, 2⟩], event_ids := [("A", 1), ("B", 2)] }

/-- Witness for the amended C1 on a concrete sorted two-annotation
series. -/
theorem block_partition_spec_witness :
    List.Chain' (fun b c => b.2 = c.1)
        (segmentBlocks (rawTwoBlocks.events.map (fun e => e.sample)) (nSamples rawTwoBlocks)) ∧
    countCovering (segmentBlocks (rawTwoBlocks.events.map (fun e => e.sample))
        (nSamples rawTwoBlocks)) 7 = 1 := by
  have h := block_partition_spec rawTwoBlocks (by decide)
    (by simp [rawTwoBlocks, List.chain'_cons]) (by decide)
  exact ⟨h.1, (h.2 7).trans (by decide)⟩

theorem segmentBlocks_length (l : List Nat) (n : Nat) :
    (segmentBlocks l n).length = l.length := by
  induction l with
  | nil => rfl
  | cons a tl ih =>
    cases tl with
    | nil => rfl
    | cons b rest => simp only [segmentBlocks, List.length_cons, ih]

/-- Except for the last one, block `i` runs from sample `l[i]` to sample
`l[i+1]`. -/
theorem segmentBlocks_getD (l : List Nat) (n : Nat) (i : Nat) (h : i + 1 < l.length) :
    (segmentBlocks l n).getD i (0, 0) = (l.getD i 0, l.getD (i + 1) 0) := by
  induction l generalizing i with
  | nil => simp at h
  | cons a tl ih =>
    cases tl with
    | nil => simp at h
    | cons b rest =>
      cases i with
      | zero => rfl
      | succ j =>
        simp only [segmentBlocks, List.getD_cons_succ]
        exact ih j (by simpa using h)

/-- C5: two consecutive annotations at the same sample index produce a
zero-length block; every row the per-channel loop produces for it is part
of the function's output and records `none` (numpy's `NaN`) for both the
mean and the standard deviation — never a numeric zero — and the
computation is total. -/
theorem zero_length_block_spec (raw : RawHemo) (t : String) (i : Nat)
    (h : i + 1 < raw.events.length)
    (hdup : (raw.events.getD i default).sample = (raw.events.getD (i + 1) default).sample)
    (row : ChannelMeasurement)
    (hrow : row ∈ blockRows t raw.data raw.ch_names raw.sfreq
        (blockLabel raw.event_ids i (raw.events.getD i default).id)
        ((segmentBlocks (raw.events.map (fun e => e.sample)) (nSamples raw)).getD i (0, 0))) :
    row ∈ get_hemoglobin_averages raw t ∧
    row.Mean_Value = none ∧ row.Std_Value = none := by
  have hlen : (raw.events.map (fun e => e.sample)).length = raw.events.length :=
    List.length_map _ _
  have hi1 : i < raw.events.length := by omega
  have hsamp : ∀ j, j < raw.events.length →
      (raw.events.map (fun e => e.sample)).getD j 0 = (raw.events.getD j default).sample := by
    intro j hj
    rw [List.getD_eq_getElem _ _ (show j < (raw.events.map (fun e => e.sample)).length by
        rw [List.length_map]; omega),
      List.getElem_map, List.getD_eq_getElem raw.events default hj]
  have hblk : (segmentBlocks (raw.events.map (fun e => e.sample)) (nSamples raw)).getD i (0, 0)
      = ((raw.events.getD i default).sample, (raw.events.getD i default).sample) := by
    rw [segmentBlocks_getD _ _ i (by omega), hsamp i (by omega), hsamp (i + 1) (by omega),
      ← hdup]
  have hms : row.Mean_Value = none ∧ row.Std_Value = none := by
    rw [hblk] at hrow
    simp only [blockRows, List.mem_map] at hrow
    obtain ⟨ci, _, rfl⟩ := hrow
    constructor <;> simp [sliceRow, npMean, npStdSq]
  refine ⟨?_, hms⟩
  have hpos : raw.events.length > 0 := by omega
  simp only [get_hemoglobin_averages]
  rw [if_pos hpos, List.mem_flatMap]
  have hbl : i < (segmentBlocks (raw.events.map (fun e => e.sample)) (nSamples raw)).length := by
    rw [segmentBlocks_length, hlen]; omega
  have henum : i < raw.events.enum.length := by rw [List.enum_length]; omega
  have hzlen : i < (raw.events.enum.zip
      (segmentBlocks (raw.events.map (fun e => e.sample)) (nSamples raw))).length := by
    rw [List.length_zip]; exact lt_min henum hbl
  refine ⟨(raw.events.enum.zip
      (segmentBlocks (raw.events.map (fun e => e.sample)) (nSamples raw)))[i],
    List.getElem_mem hzlen, ?_⟩
  rw [List.getElem_zip, List.getElem_enum]
  rw [← List.getD_eq_getElem raw.events default hi1, ← List.getD_eq_getElem _ (0, 0) hbl]
  exact hrow

/-- A three-sample series with two annotations at the same sample. -/
def rawDup : RawHemo :=
  { ch_names := ["S1_D1 hbo"], sfreq := 5, data := [[1, 2, 3]]
    events := [⟨1, 0, 1⟩, ⟨1, 0, 2⟩], event_ids := [("A", 1), ("B", 2)] }

/-- Witness for C5 on a concrete duplicate-sample annotation pair. -/
theorem zero_length_block_spec_witness :
    (blockRows "t" rawDup.data rawDup.ch_names rawDup.sfreq
        (blockLabel rawDup.event_ids 0 (rawDup.events.getD 0 default).id)
        ((segmentBlocks (rawDup.events.map (fun e => e.sample)) (nSamples rawDup)).getD 0
          (0, 0))).getD 0 default
      ∈ get_hemoglobin_averages rawDup "t" ∧
    ((blockRows "t" rawDup.data rawDup.ch_names rawDup.sfreq
        (blockLabel rawDup.event_ids 0 (rawDup.events.getD 0 default).id)
        ((segmentBlocks (rawDup.events.map (fun e => e.sample)) (nSamples rawDup)).getD 0
          (0, 0))).getD 0 default).Mean_Value = none ∧
    ((blockRows "t" rawDup.data rawDup.ch_names rawDup.sfreq
        (blockLabel rawDup.event_ids 0 (rawDup.events.getD 0 default).id)
        ((segmentBlocks (rawDup.events.map (fun e => e.sample)) (nSamples rawDup)).getD 0
          (0, 0))).getD 0 default).Std_Value = none := by
  have hlen0 : 0 < (blockRows "t" rawDup.data rawDup.ch_names rawDup.sfreq
      (blockLabel rawDup.event_ids 0 (rawDup.events.getD 0 default).id)
      ((segmentBlocks (rawDup.events.map (fun e => e.sample)) (nSamples rawDup)).getD 0
        (0, 0))).length := by decide
  have hmem := List.getElem_mem hlen0
  rw [← List.getD_eq_getElem _ default hlen0] at hmem
  exact zero_length_block_spec rawDup "t" 0 (by decide) (by decide) _ hmem

theorem searchSD_eq_none (l : List Char) (h : ∀ i, matchSDFrom (l.drop i) = none) :
    searchSD l = none := by
  induction l with
  | nil => rfl
  | cons c rest ih =>
    have h0 := h 0
    rw [List.drop_zero] at h0
    simp only [searchSD, h0]
    exact ih (fun i => by simpa [List.drop_succ_cons] using h (i + 1))

/-- A label with no substring matching `S(\d+)_D(\d+)` resolves to no
source-detector key. -/
theorem extract_source_detector_eq_none (s : String) (h : hasSDPattern s = false) :
    extract_source_detector s = none := by
  apply searchSD_eq_none
  intro i
  by_cases hi : i ≤ s.toList.length
  · cases hm : matchSDFrom (s.toList.drop i) with
    | none => rfl
    | some v =>
      rw [hasSDPattern, List.any_eq_false] at h
      have hcon := h i (List.mem_range.mpr (by omega))
      rw [hm] at hcon
      simp at hcon
  · rw [List.drop_eq_nil_of_le (by omega)]
    rfl

/-- C7: a channel label containing no `S<number>_D<number>` substring is
unmapped regardless of the mapping table's content: its source-detector
key is `None`, it never enters any region's aggregation rows, yet its HbO
measurement stays in the detailed report's rows. -/
theorem unmapped_channel_spec (ch : String) (hnp : hasSDPattern ch = false)
    (channel_to_region : List (String × String)) (region : String)
    (combined : List ChannelMeasurement) (m : ChannelMeasurement)
    (hm : m ∈ combined) (hch : m.Channel = ch) (hhb : m.HbType = "HbO") :
    extract_source_detector ch = none ∧
    m ∉ regionRows channel_to_region combined region ∧
    m ∈ hbo_df combined := by
  have hext : extract_source_detector ch = none := extract_source_detector_eq_none ch hnp
  refine ⟨hext, ?_, List.mem_filter.mpr ⟨hm, by simp [hhb]⟩⟩
  intro hmem
  have hpred := (List.mem_filter.mp hmem).2
  rw [withRegion, hch, hext] at hpred
  simp at hpred

/-- An HbO measurement row on a channel with no source-detector
pattern. -/
def mUnmapped : ChannelMeasurement :=
  { Trial := "t", Block := "Rest", Channel := "AUX 1", HbType := "HbO"
    Mean_Value := none, Std_Value := none, Block_Duration_s := 0 }

/-- Witness for C7 on a concrete pattern-free channel label and a
non-trivial mapping table. -/
theorem unmapped_channel_spec_witness :
    extract_source_detector "AUX 1" = none ∧
    mUnmapped ∉ regionRows [("S1_D1", "Frontal")] [mUnmapped] "Frontal" ∧
    mUnmapped ∈ hbo_df [mUnmapped] :=
  unmapped_channel_spec "AUX 1" (by decide) [("S1_D1", "Frontal")] "Frontal"
    [mUnmapped] mUnmapped (List.mem_singleton.mpr rfl) rfl rfl
